import Mathlib

/-!
Verification development for the MaxScale backend-connectivity core:
address parsing (`maxbase/src/host.cc`), wire-packet decoding, identifier
translation, connection establishment and query execution
(`server/core/mysql_utils.cc`).  C++ strings are embedded as `List Char`,
byte buffers as `List Nat`, machine integers as `Int`/`Nat`.
-/

namespace Mxs

/-! ## Character classification (C standard library, "C" locale) -/

/-- C `isspace` in the "C" locale. -/
def isspaceC (c : Char) : Bool :=
  c = ' ' || c = '\t' || c = '\n' || c = '\x0b' || c = '\x0c' || c = '\r'

/-- C `isdigit`. -/
def isdigitC (c : Char) : Bool := '0' ≤ c && c ≤ '9'

/-- C `isalnum` in the "C" locale (ASCII letters and digits). -/
def isalnumC (c : Char) : Bool :=
  ('0' ≤ c && c ≤ '9') || ('a' ≤ c && c ≤ 'z') || ('A' ≤ c && c ≤ 'Z')

/-- C `isxdigit`. -/
def isxdigitC (c : Char) : Bool :=
  ('0' ≤ c && c ≤ '9') || ('a' ≤ c && c ≤ 'f') || ('A' ≤ c && c ≤ 'F')

/-- Front character of a `std::string`; for the empty string the C++ code's
`front()` resolves to `operator[](0)`, which yields the null character. -/
def frontC (s : List Char) : Char := s.headD '\x00'

/-- Back character of a `std::string`; only ever evaluated on the success
side of short-circuit conjunctions in the source, so give the empty string
a null default here as well. -/
def backC (s : List Char) : Char := s.getLastD '\x00'

/-! ## host.cc: shape validators -/

/-- Validator `is_valid_ipv4` from host.cc: only digits and dots, length in [7,15],
exactly three dots. -/
def is_valid_ipv4 (ip : List Char) : Bool :=
  ip.all (fun c => isdigitC c || c = '.')
    && (ip.length ≤ 15 && 7 ≤ ip.length)
    && (ip.count '.' = 3)

/-- Validator `is_valid_ipv6` from host.cc: at least two colons, only hex digits,
colons and dots, length in [2,45]. -/
def is_valid_ipv6 (ip : List Char) : Bool :=
  (2 ≤ ip.count ':')
    && ip.all (fun c => isxdigitC c || c = ':' || c = '.')
    && (ip.length ≤ 45 && 2 ≤ ip.length)

/-- Validator `is_valid_hostname` from host.cc: alphanumeric, underscore or dot,
does not start with underscore, length in [1,253]. -/
def is_valid_hostname (hn : List Char) : Bool :=
  hn.all (fun c => isalnumC c || c = '_' || c = '.')
    && (frontC hn ≠ '_')
    && (hn.length ≤ 253 && 0 < hn.length)

/-- Validator `is_valid_socket` from host.cc: first character is a slash and the
last one is not. -/
def is_valid_socket (addr : List Char) : Bool :=
  frontC addr = '/' && backC addr ≠ '/'

/-- Validator `is_valid_port` from host.cc: `0 < port && port < (1 << 16)`. -/
def is_valid_port (port : Int) : Bool :=
  decide (0 < port) && decide (port < 65536)

/-! ## host.cc: Host -/

/-- Enumeration `Host::Type` from maxbase/host.hh. -/
inductive HostType where
  | Invalid
  | UnixDomainSocket
  | HostName
  | IPV4
  | IPV6
deriving DecidableEq, Repr

/-- Modelled from the spec: the header maxbase/host.hh is not under src/;
the spec says the port is `-1` when present but non-numeric and
absent/unset otherwise, so the unset marker is the same invalid value. -/
def invalidPort : Int := -1

/-- The `Host` value: original input, parsed address, port and type. -/
structure Host where
  org_input : List Char
  address : List Char
  port : Int
  type : HostType
deriving DecidableEq, Repr

/-- Classifier `Host::set_type` from host.cc: socket shape wins if no port string was
supplied, otherwise a valid port admits IPv4, IPv6 then hostname shape, in
that order; anything else leaves the type `Invalid`. -/
def set_type (addr : List Char) (port : Int) (port_string_specified : Bool) : HostType :=
  if is_valid_socket addr then
    if !port_string_specified then .UnixDomainSocket else .Invalid
  else if is_valid_port port then
    if is_valid_ipv4 addr then .IPV4
    else if is_valid_ipv6 addr then .IPV6
    else if is_valid_hostname addr then .HostName
    else .Invalid
  else .Invalid

/-- Modelled from the spec: `maxbase::trimmed_copy` (maxbase/string.hh is
not under src/) removes leading whitespace. -/
def trimLeft (s : List Char) : List Char := s.dropWhile isspaceC

/-- Modelled from the spec: `maxbase::trimmed_copy` removes trailing
whitespace. -/
def trimRight (s : List Char) : List Char := (s.reverse.dropWhile isspaceC).reverse

/-- Modelled from the spec: `maxbase::trimmed_copy` trims leading and
trailing whitespace. -/
def trimmed (s : List Char) : List Char := trimRight (trimLeft s)

/-- Intermediate state of `Host::Host(const std::string&)` after the
branching on `[`/IPv6/colon: parsed address, port text, and whether the
whole input was consumed (`ite == end(input)`). -/
structure ParseTrace where
  address : List Char
  portPart : List Char
  consumed : Bool
deriving DecidableEq, Repr

/-- The parsing section of `Host::Host(const std::string&)` (host.cc lines
130-166), acting on the already-trimmed, non-empty input. -/
def parseParts (input : List Char) : ParseTrace :=
  match input with
  | [] => ⟨[], [], true⟩
  | c :: t =>
    if c = '[' then
      -- expecting [address]:port, where :port is optional
      let a := t.takeWhile (fun x => x ≠ ']')
      match t.dropWhile (fun x => x ≠ ']') with
      | [] => ⟨a, [], t.isEmpty⟩          -- no ']': ite was left at begin+1
      | _ :: after =>
        match after with
        | ':' :: p1 :: ps => ⟨a, p1 :: ps, true⟩
        | [] => ⟨a, [], true⟩              -- ']' was the final character
        | _ => ⟨a, [], false⟩              -- trailing garbage after ']'
    else if is_valid_ipv6 input then
      ⟨input, [], true⟩
    else
      -- expecting address:port, where :port is optional
      let a := input.takeWhile (fun x => x ≠ ':')
      match input.dropWhile (fun x => x ≠ ':') with
      | [] => ⟨a, [], true⟩                -- no colon at all
      | _ :: [] => ⟨a, [], false⟩          -- colon is the final character
      | _ :: p1 :: ps => ⟨a, p1 :: ps, true⟩

/-- Conversion `atoi` on an all-digit string (the source only calls it after checking
`std::all_of(isdigit)`; overflow is modelled as exact arithmetic). -/
def atoiNat (s : List Char) : Nat :=
  s.foldl (fun a c => 10 * a + (c.toNat - 48)) 0

/-- The port assignment of `Host::Host(const std::string&)`: left at the
unset marker when no port text was found, `atoi` of the text when it is
all digits, `-1` otherwise. -/
def portOfPart (pp : List Char) : Int :=
  if pp.isEmpty then invalidPort
  else if pp.all isdigitC then (atoiNat pp : Int) else -1

/-- Constructor `Host::Host(const std::string& in)` from host.cc. -/
def hostFromString (s : List Char) : Host :=
  let input := trimmed s
  if input.isEmpty then ⟨s, [], invalidPort, .Invalid⟩
  else
    let t := parseParts input
    if t.consumed then
      ⟨s, t.address, portOfPart t.portPart,
        set_type t.address (portOfPart t.portPart) (!t.portPart.isEmpty)⟩
    else
      ⟨s, t.address, invalidPort, .Invalid⟩

/-- Constructor `Host::Host(const std::string& addr, int port)` from host.cc: the
classification pass runs only when the address is non-empty and does not
start with `[`. -/
def hostFromAddrPort (addr : List Char) (port : Int) : Host :=
  if !addr.isEmpty && frontC addr ≠ '[' then
    ⟨addr, addr, port, set_type addr port false⟩
  else
    ⟨addr, addr, port, .Invalid⟩

/-- The address `set_type` is invoked with by the text constructor, when it
is invoked at all (`none` when classification is skipped). -/
def setTypeArg (s : List Char) : Option (List Char) :=
  let input := trimmed s
  if input.isEmpty then none
  else
    let t := parseParts input
    if t.consumed then some t.address else none

/-! ## host.cc: formatting (`operator<<`) -/

/-- Decimal digit to character; the source never needs a value above 9. -/
def digitChar (d : Nat) : Char :=
  match d with
  | 0 => '0' | 1 => '1' | 2 => '2' | 3 => '3' | 4 => '4'
  | 5 => '5' | 6 => '6' | 7 => '7' | 8 => '8' | 9 => '9'
  | _ => '*'

/-- Little-endian digit characters of `n`, with enough structural fuel. -/
def natCharsAux : Nat → Nat → List Char
  | 0, _ => []
  | _ + 1, 0 => []
  | fuel + 1, n + 1 => digitChar ((n + 1) % 10) :: natCharsAux fuel ((n + 1) / 10)

/-- Decimal rendering of a natural number, as `operator<<(ostream, int)`
produces for non-negative values. -/
def natChars (n : Nat) : List Char :=
  if n = 0 then ['0'] else (natCharsAux n n).reverse

/-- Decimal rendering of an `int` as `operator<<` produces. -/
def intChars (i : Int) : List Char :=
  if i < 0 then '-' :: natChars (-i).toNat else natChars i.toNat

/-- Formatter `operator<<(std::ostream&, const Host&)` from host.cc. -/
def formatHost (h : Host) : List Char :=
  match h.type with
  | .Invalid =>
      "INVALID input: '".toList ++ h.org_input ++ "' parsed to ".toList
        ++ h.address ++ [':'] ++ intChars h.port
  | .UnixDomainSocket => h.address
  | .HostName => h.address ++ ':' :: intChars h.port
  | .IPV4 => h.address ++ ':' :: intChars h.port
  | .IPV6 => '[' :: h.address ++ ']' :: ':' :: intChars h.port

/-- Equality on the components the round-trip claim names: address, port
and type. -/
def hostEquiv (a b : Host) : Prop :=
  a.address = b.address ∧ a.port = b.port ∧ a.type = b.type

/-! ## mysql_utils.cc: `dbg_decode_response` (the packet decoder)

Byte buffers are `List Nat`; `byteAt` is the dereference of the buffer
iterator, recording of the accessed offsets is made explicit so that the
out-of-bounds question becomes a statement about recorded offsets versus
the buffer length. -/

/-- Modelled from the spec: `MYSQL_HEADER_LEN` (protocol header, not under
src/) is the 4-byte packet header size. -/
def MYSQL_HEADER_LEN : Nat := 4

/-- Dereference of the buffer iterator at an absolute offset. -/
def byteAt (buf : List Nat) (i : Nat) : Nat := buf.getD i 0

/-- Classification of a decoded packet, after the first payload byte. -/
inductive PacketClass where
  | ok
  | err (code : Nat) (message : List Nat)
  | localInfile
  | resultSetOrOther
deriving DecidableEq, Repr

/-- One decoded packet: sequence number, payload length, classification. -/
structure DecodedPacket where
  seq : Nat
  payloadLen : Nat
  cls : PacketClass
deriving DecidableEq, Repr

/-- Result of the decode loop: the decoded packets, every byte offset the
loop dereferenced, and the final value of `nRemaining`. -/
structure DecodeOut where
  packets : List DecodedPacket
  reads : List Nat
  finalRemaining : Int
deriving DecidableEq, Repr

/-- Offsets read by the ERR branch: `error[0] = *it` reads `pos + 5`, then
`std::copy(it, std::next(it, payload_len - 1), error + 1)` reads
`payload_len - 1` bytes starting at `pos + 5`. -/
def errReads (pos plen : Nat) : List Nat :=
  (pos + 5) :: (List.range (plen - 1)).map (fun k => pos + 5 + k)

/-- The `while (nRemaining > MYSQL_HEADER_LEN + 1)` loop of
`dbg_decode_response` (mysql_utils.cc lines 314-377).  `pos` is the
absolute offset of the iterator `start`; the 5-byte `header` copy reads
`pos .. pos+4`; payload length is 3-byte little-endian, then sequence
number, then the command byte; the ERR branch additionally decodes the
2-byte error code at payload offsets 1-2 and the message from payload
offset 9 to the end of the declared payload. -/
def decodeLoop (buf : List Nat) (pos : Nat) (n : Int) : DecodeOut :=
  if h : n > MYSQL_HEADER_LEN + 1 then
    let plen := byteAt buf pos + 256 * byteAt buf (pos + 1) + 65536 * byteAt buf (pos + 2)
    let seq := byteAt buf (pos + 3)
    let cmd := byteAt buf (pos + 4)
    let hdrReads := [pos, pos + 1, pos + 2, pos + 3, pos + 4]
    let step :=
      if cmd = 0x00 then (PacketClass.ok, ([] : List Nat))
      else if cmd = 0xff then
        let code := byteAt buf (pos + 5) + 256 * byteAt buf (pos + 6)
        let msg := (List.range (plen - 9)).map (fun k => byteAt buf (pos + 13 + k))
        (PacketClass.err code msg, errReads pos plen)
      else if cmd = 0xfb then (PacketClass.localInfile, ([] : List Nat))
      else (PacketClass.resultSetOrOther, ([] : List Nat))
    let rest := decodeLoop buf (pos + MYSQL_HEADER_LEN + plen) (n - MYSQL_HEADER_LEN - plen)
    ⟨⟨seq, plen, step.1⟩ :: rest.packets, hdrReads ++ step.2 ++ rest.reads, rest.finalRemaining⟩
  else
    ⟨[], [], n⟩
termination_by n.toNat
decreasing_by
  simp only [MYSQL_HEADER_LEN] at h ⊢
  omega

/-- Function `dbg_decode_response`: `nRemaining` starts at the buffer length and the
iterator at offset 0. -/
def dbg_decode_response (buf : List Nat) : DecodeOut :=
  decodeLoop buf 0 (buf.length : Int)

/-- A wire packet: 3-byte little-endian payload length, sequence byte,
payload. -/
def encodePacket (seq : Nat) (payload : List Nat) : List Nat :=
  payload.length % 256 :: payload.length / 256 % 256 :: payload.length / 65536 % 256
    :: seq :: payload

/-- The classification the decoder assigns to a packet, phrased over the
payload itself: first byte `0x00` is OK, `0xff` is ERR with the 2-byte
little-endian code at payload offsets 1-2 and the message from payload
offset 9 to the declared end, `0xfb` is a local-infile request, anything
else a result set. -/
def packetClassOf (payload : List Nat) : PacketClass :=
  if payload.getD 0 0 = 0x00 then .ok
  else if payload.getD 0 0 = 0xff then
    .err (payload.getD 1 0 + 256 * payload.getD 2 0)
      ((List.range (payload.length - 9)).map (fun k => payload.getD (9 + k) 0))
  else if payload.getD 0 0 = 0xfb then .localInfile
  else .resultSetOrOther

/-! ## mysql_utils.cc: `mxs_mysql_trim_quotes` -/

/-- The quote characters recognised by `mxs_mysql_trim_quotes`. -/
def isQuoteChar (c : Char) : Bool := c = '\'' || c = '\"' || c = '\x60'

/-- Function `mxs_mysql_trim_quotes` (mysql_utils.cc lines 130-195), as a function
from the buffer contents to the resulting contents and the returned flag.
Leading whitespace is only skipped over (the buffer is compacted by
`memmove` solely on the two success paths), trailing whitespace is
overwritten with NULs up front; on a quote mismatch no `memmove` happens,
so the leading whitespace stays in place. -/
def mxs_mysql_trim_quotes (s : List Char) : List Char × Bool :=
  let lead := s.takeWhile isspaceC
  let rest := s.dropWhile isspaceC
  match rest with
  | [] => ([], true)
  | _ :: _ =>
    let core := trimRight rest
    if isQuoteChar (frontC core) then
      if backC core = frontC core then (core.tail.dropLast, true)
      else (lead ++ core, false)
    else (core, true)

/-! ## mysql_utils.cc: `mxs_mysql_name_to_pcre` -/

/-- Enumeration `mxs_pcre_quote_approach_t`: whether `%` is translated to a wildcard. -/
inductive QuoteApproach where
  | wildcard
  | verbatim
deriving DecidableEq, Repr

/-- Enumeration `mxs_mysql_name_kind_t`. -/
inductive NameKind where
  | withoutWildcard
  | withWildcard
deriving DecidableEq, Repr

/-- The characters escaped by `mxs_mysql_name_to_pcre`. -/
def pcreMetaChars : List Char :=
  ['\'', '^', '.', '$', '|', '(', ')', '[', ']', '*', '+', '?', '\x7b', '\x7d']

/-- Function `mxs_mysql_name_to_pcre` (mysql_utils.cc lines 198-246).  The output
buffer is modelled as the sequence of written cells: `some c` is a written
character, `none` is a cell the pointer skipped without writing — in the
`%`-with-`MXS_PCRE_QUOTE_VERBATIM` case the code advances `pcre` without
storing anything, leaving that byte of the caller's buffer untouched. -/
def mxs_mysql_name_to_pcre : List Char → QuoteApproach → List (Option Char) × NameKind
  | [], _ => ([], .withoutWildcard)
  | c :: cs, approach =>
    let rest := mxs_mysql_name_to_pcre cs approach
    if c = '%' then
      ((if approach = .wildcard then [some '.', some '*'] else [none]) ++ rest.1,
        .withWildcard)
    else if c ∈ pcreMetaChars then
      (some '\\' :: some c :: rest.1, rest.2)
    else
      (some c :: rest.1, rest.2)

/-! ## mysql_utils.cc: `mxs_mysql_real_connect` and `execute_query`

The MariaDB client library and the global configuration are external
collaborators; their outcomes are oracle fields of `ConnectEnv` and
`MySqlSession`. -/

/-- Modelled from the spec: `mxb::SSLConfig` (not under src/) carries the
TLS key/cert/CA paths; `empty()` means no TLS material is configured. -/
structure SslConfig where
  key : List Char
  cert : List Char
  ca : List Char
deriving DecidableEq, Repr

/-- Modelled from the spec: `SSLConfig::empty()` — all fields empty means
"disabled". -/
def SslConfig.isEmptyCfg (c : SslConfig) : Bool :=
  c.key.isEmpty && c.cert.isEmpty && c.ca.isEmpty

/-- The `SERVER` fields `mxs_mysql_real_connect` touches. -/
structure Server where
  address : List Char
  port : Nat
  extra_port : Int
  charset : Nat
  warn_ssl_not_enabled : Bool
  ssl : Option SslConfig
deriving DecidableEq, Repr

/-- Outcomes of the external client-library calls made by
`mxs_mysql_real_connect`: whether each `mysql_real_connect` variant would
succeed, the cipher `mysql_get_ssl_cipher` reports on the established
session, and the character set `mysql_get_character_set_info` reports. -/
structure ConnectEnv where
  socketConnectOk : Bool
  primaryConnectOk : Bool
  extraConnectOk : Bool
  cipher : Option (List Char)
  charsetNumber : Nat
deriving DecidableEq, Repr

/-- The transport-connect decision of `mxs_mysql_real_connect`
(mysql_utils.cc lines 65-82): a leading `/` in the address selects the
socket connect ignoring ports; otherwise the primary port is tried and, on
failure, a positive `extra_port` once. -/
def transportConnected (env : ConnectEnv) (server : Server) : Bool :=
  if frontC server.address = '/' then env.socketConnectOk
  else if env.primaryConnectOk then true
  else if server.extra_port > 0 then env.extraConnectOk
  else false

/-- Function `mxs_mysql_real_connect` (mysql_utils.cc lines 36-106): TLS material is
applied if configured and non-empty; the transport connect runs as in
`transportConnected`; on any successful transport connect the server
charset is copied from the session; finally, if TLS was configured but the
session negotiated no cipher, the connection is discarded (returned as
`none`) and the sticky warning flag is cleared. -/
def mxs_mysql_real_connect (env : ConnectEnv) (server : Server) :
    Option Unit × Server :=
  let have_ssl := match server.ssl with
    | some cfg => !cfg.isEmptyCfg
    | none => false
  let connected := transportConnected env server
  if connected then
    let server1 := { server with charset := env.charsetNumber }
    if have_ssl && env.cipher.isNone then
      let server2 :=
        if server1.warn_ssl_not_enabled then
          { server1 with warn_ssl_not_enabled := false }
        else server1
      (none, server2)
    else (some (), server1)
  else (none, server)

/-- The session state `maxscale::execute_query` consults: the final return
code of `mxs_mysql_query` (the retry primitive is an external
collaborator), whether `mysql_store_result` yields a result set, and the
server's error message and code. -/
structure MySqlSession where
  queryRc : Int
  storeOk : Bool
  errMsg : List Char
  errNo : Nat
deriving DecidableEq, Repr

/-- Function `maxscale::execute_query` (mysql_utils.cc lines 260-284): on success an
opaque result handle; otherwise the formatted message
`Query '<query>' failed: '<server message>'.` and the server error code
are written to the out-parameters (modelled as `Option`s that are `none`
when the failure path did not run). -/
def execute_query (conn : MySqlSession) (query : List Char) :
    Option Unit × Option (List Char) × Option Nat :=
  if conn.queryRc = 0 && conn.storeOk then
    (some (), none, none)
  else
    (none,
      some ("Query '".toList ++ query ++ "' failed: '".toList ++ conn.errMsg ++ "'.".toList),
      some conn.errNo)

/-- The invariant claimed for every constructed `Host`: socket type forces
the socket address shape, the three network types force a valid port, and
with the socket type excluded an invalid port forces `Invalid`. -/
def hostInv (h : Host) : Prop :=
  (h.type = .UnixDomainSocket → h.address.head? = some '/' ∧ h.address.getLast? ≠ some '/')
    ∧ ((h.type = .HostName ∨ h.type = .IPV4 ∨ h.type = .IPV6) →
        0 < h.port ∧ h.port < 65536)
    ∧ (h.type ≠ .UnixDomainSocket → ¬(0 < h.port ∧ h.port < 65536) → h.type = .Invalid)

/-- Side condition under which a `UnixDomainSocket` host survives the
format/re-parse round trip: no colon in the path, no trailing whitespace,
and the port still the unset marker. -/
def udsRoundtripSafe (h : Host) : Prop :=
  h.type = .UnixDomainSocket →
    (':' ∉ h.address ∧ isspaceC (backC h.address) = false ∧ h.port = invalidPort)

/-- Per-character output of `mxs_mysql_name_to_pcre`, spelled as a direct
character map: metacharacters get a backslash prefix, `%` becomes `.*`
under wildcard quoting and an unwritten cell under verbatim quoting, and
everything else passes through. -/
def pcreCharTrans (approach : QuoteApproach) (c : Char) : List (Option Char) :=
  if c = '%' then
    if approach = .wildcard then [some '.', some '*'] else [none]
  else if c ∈ pcreMetaChars then [some '\\', some c]
  else [some c]

/-! ## Helper lemmas: characters, lists, trimming -/

theorem not_mem_of_all {l : List Char} {p : Char → Bool} (h : l.all p = true)
    {x : Char} (hx : p x = false) : x ∉ l := by
  intro hmem
  have hc := List.all_eq_true.mp h x hmem
  rw [hx] at hc
  cases hc

theorem ne_of_pred {p : Char → Bool} {c x : Char} (hc : p c = true) (hx : p x = false) :
    c ≠ x := by
  intro he
  subst he
  rw [hc] at hx
  cases hx

theorem isspaceC_true_elim {c : Char} (h : isspaceC c = true) :
    c = ' ' ∨ c = '\t' ∨ c = '\n' ∨ c = '\x0b' ∨ c = '\x0c' ∨ c = '\r' := by
  simpa [isspaceC, or_assoc] using h

theorem not_space_of_charset {p : Char → Bool}
    (hsp : ∀ x, isspaceC x = true → p x = false)
    {c : Char} (hc : p c = true) : isspaceC c = false := by
  cases hs : isspaceC c
  · rfl
  · rw [hsp c hs] at hc
    cases hc

theorem head?_eq_of_frontC {a : List Char} {c : Char} (h : frontC a = c)
    (hc : c ≠ '\x00') : a.head? = some c := by
  cases a with
  | nil => exact absurd h.symm hc
  | cons x t => simpa [frontC] using h

theorem getLast?_ne_of_backC {a : List Char} {c : Char} (h : backC a ≠ c) :
    a.getLast? ≠ some c := by
  intro he
  apply h
  unfold backC
  rw [List.getLastD_eq_getLast?, he]
  rfl

theorem backC_eq_of_getLast? {a : List Char} {c : Char} (h : a.getLast? = some c) :
    backC a = c := by
  unfold backC
  rw [List.getLastD_eq_getLast?, h]
  rfl

theorem trimLeft_cons_of_not_space {c : Char} {t : List Char} (h : isspaceC c = false) :
    trimLeft (c :: t) = c :: t := by
  simp [trimLeft, List.dropWhile_cons, h]

theorem trimRight_eq_self {l : List Char}
    (h : ∀ c, l.getLast? = some c → isspaceC c = false) : trimRight l = l := by
  unfold trimRight
  cases hr : l.reverse with
  | nil => simpa using congrArg List.reverse hr.symm
  | cons c t =>
    have hc : l.getLast? = some c := by
      rw [← List.head?_reverse, hr]
      rfl
    rw [List.dropWhile_cons, h c hc]
    simpa using congrArg List.reverse hr.symm

theorem trimmed_eq_self {c : Char} {t : List Char} (h1 : isspaceC c = false)
    (h2 : ∀ x, (c :: t).getLast? = some x → isspaceC x = false) :
    trimmed (c :: t) = c :: t := by
  unfold trimmed
  rw [trimLeft_cons_of_not_space h1, trimRight_eq_self h2]

theorem splitAt_marker {p : Char → Bool} {x : Char} (hx : p x = false) :
    ∀ {a : List Char}, (∀ c ∈ a, p c = true) → ∀ ds : List Char,
      (a ++ x :: ds).takeWhile p = a ∧ (a ++ x :: ds).dropWhile p = x :: ds := by
  intro a
  induction a with
  | nil =>
    intro _ ds
    simp [List.takeWhile_cons, List.dropWhile_cons, hx]
  | cons c t ih =>
    intro ha ds
    have hc : p c = true := ha c (List.mem_cons_self c t)
    have ht : ∀ c2 ∈ t, p c2 = true := fun c2 hm => ha c2 (List.mem_cons_of_mem c hm)
    have := ih ht ds
    simp [List.takeWhile_cons, List.dropWhile_cons, hc, this.1, this.2]

/-! ## Helper lemmas: decimal digits -/

theorem digitChar_isdigit {d : Nat} (h : d < 10) : isdigitC (digitChar d) = true := by
  interval_cases d <;> decide

theorem digitChar_toNat {d : Nat} (h : d < 10) : (digitChar d).toNat - 48 = d := by
  interval_cases d <;> decide

theorem natCharsAux_digits : ∀ fuel n c, c ∈ natCharsAux fuel n → isdigitC c = true := by
  intro fuel
  induction fuel with
  | zero =>
    intro n c hc
    cases hc
  | succ f ih =>
    intro n c hc
    cases n with
    | zero => cases hc
    | succ m =>
      rw [natCharsAux] at hc
      rcases List.mem_cons.mp hc with h | h
      · subst h
        exact digitChar_isdigit (Nat.mod_lt _ (by norm_num))
      · exact ih _ _ h

theorem natChars_digits {n : Nat} {c : Char} (hc : c ∈ natChars n) : isdigitC c = true := by
  unfold natChars at hc
  split at hc
  · rw [List.mem_singleton] at hc
    subst hc
    decide
  · exact natCharsAux_digits n n c (List.mem_reverse.mp hc)

theorem natChars_ne_nil (n : Nat) : natChars n ≠ [] := by
  unfold natChars
  split
  · simp
  · rename_i h
    cases n with
    | zero => exact absurd rfl h
    | succ m =>
      rw [natCharsAux]
      simp

theorem foldl_natCharsAux (fuel : Nat) : ∀ n acc, n ≤ fuel →
    ((natCharsAux fuel n).reverse).foldl (fun a c => 10 * a + (c.toNat - 48)) acc
      = acc * 10 ^ (natCharsAux fuel n).length + n := by
  induction fuel with
  | zero =>
    intro n acc h
    interval_cases n
    simp [natCharsAux]
  | succ f ih =>
    intro n acc h
    cases n with
    | zero => simp [natCharsAux]
    | succ m =>
      have hq : (m + 1) / 10 ≤ f := by omega
      rw [natCharsAux, List.reverse_cons, List.foldl_append, ih _ acc hq]
      have hdm : 10 * ((m + 1) / 10) + (m + 1) % 10 = m + 1 := Nat.div_add_mod (m + 1) 10
      simp only [List.foldl_cons, List.foldl_nil, List.length_cons]
      rw [digitChar_toNat (Nat.mod_lt _ (by norm_num))]
      calc 10 * (acc * 10 ^ (natCharsAux f ((m + 1) / 10)).length + (m + 1) / 10)
            + (m + 1) % 10
          = acc * (10 ^ (natCharsAux f ((m + 1) / 10)).length * 10)
            + (10 * ((m + 1) / 10) + (m + 1) % 10) := by ring
        _ = acc * 10 ^ ((natCharsAux f ((m + 1) / 10)).length + 1) + (m + 1) := by
            rw [pow_succ, hdm]

theorem atoiNat_natChars (n : Nat) : atoiNat (natChars n) = n := by
  unfold atoiNat natChars
  split
  · rename_i h
    subst h
    decide
  · simpa using foldl_natCharsAux n n 0 (le_refl n)

theorem intChars_pos {p : Int} (h : 0 < p) : intChars p = natChars p.toNat := by
  unfold intChars
  rw [if_neg (by omega)]

/-! ## Helper lemmas: `set_type` inversions -/

theorem set_type_uds_elim {a : List Char} {p : Int} {f : Bool}
    (h : set_type a p f = .UnixDomainSocket) : is_valid_socket a = true ∧ f = false := by
  unfold set_type at h
  split_ifs at h <;> simp_all

theorem set_type_ipv4_elim {a : List Char} {p : Int} {f : Bool}
    (h : set_type a p f = .IPV4) :
    is_valid_socket a = false ∧ is_valid_port p = true ∧ is_valid_ipv4 a = true := by
  unfold set_type at h
  split_ifs at h <;> simp_all

theorem set_type_ipv6_elim {a : List Char} {p : Int} {f : Bool}
    (h : set_type a p f = .IPV6) :
    is_valid_socket a = false ∧ is_valid_port p = true ∧ is_valid_ipv4 a = false
      ∧ is_valid_ipv6 a = true := by
  unfold set_type at h
  split_ifs at h <;> simp_all

theorem set_type_hostname_elim {a : List Char} {p : Int} {f : Bool}
    (h : set_type a p f = .HostName) :
    is_valid_socket a = false ∧ is_valid_port p = true ∧ is_valid_ipv4 a = false
      ∧ is_valid_ipv6 a = false ∧ is_valid_hostname a = true := by
  unfold set_type at h
  split_ifs at h <;> simp_all

theorem set_type_network_port {a : List Char} {p : Int} {f : Bool}
    (h : set_type a p f = .HostName ∨ set_type a p f = .IPV4 ∨ set_type a p f = .IPV6) :
    is_valid_port p = true := by
  rcases h with h | h | h
  · exact (set_type_hostname_elim h).2.1
  · exact (set_type_ipv4_elim h).2.1
  · exact (set_type_ipv6_elim h).2.1

theorem set_type_invalid_of_bad_port {a : List Char} {p : Int} {f : Bool}
    (hne : set_type a p f ≠ .UnixDomainSocket) (hp : is_valid_port p = false) :
    set_type a p f = .Invalid := by
  unfold set_type at hne ⊢
  split_ifs at hne ⊢ <;> simp_all

theorem set_type_flag_irrel {a : List Char} {p : Int}
    (hs : is_valid_socket a = false) (f1 f2 : Bool) :
    set_type a p f1 = set_type a p f2 := by
  simp [set_type, hs]

theorem is_valid_port_iff {p : Int} : is_valid_port p = true ↔ 0 < p ∧ p < 65536 := by
  simp [is_valid_port]

/-! ## Helper lemmas: constructor structure -/

theorem hostFromString_type_cases (s : List Char) :
    (hostFromString s).type = .Invalid ∨
      ∃ f, (hostFromString s).type
        = set_type (hostFromString s).address (hostFromString s).port f := by
  unfold hostFromString
  dsimp only
  split
  · exact Or.inl rfl
  · split
    · exact Or.inr ⟨_, rfl⟩
    · exact Or.inl rfl

theorem hostFromAddrPort_type_cases (a : List Char) (p : Int) :
    (hostFromAddrPort a p).type = .Invalid ∨
      (hostFromAddrPort a p).type
        = set_type (hostFromAddrPort a p).address (hostFromAddrPort a p).port false := by
  unfold hostFromAddrPort
  split
  · exact Or.inr rfl
  · exact Or.inl rfl

theorem hostInv_of_cases {h : Host}
    (hc : h.type = .Invalid ∨ ∃ f, h.type = set_type h.address h.port f) : hostInv h := by
  rcases hc with hc | ⟨f, hc⟩
  · refine ⟨fun ht => ?_, fun ht => ?_, fun _ _ => hc⟩
    · rw [hc] at ht
      cases ht
    · rcases ht with ht | ht | ht <;> rw [hc] at ht <;> cases ht
  · refine ⟨fun ht => ?_, fun ht => ?_, fun hne hp => ?_⟩
    · have hu := set_type_uds_elim (hc ▸ ht)
      have hsock : frontC h.address = '/' ∧ backC h.address ≠ '/' := by
        simpa [is_valid_socket] using hu.1
      exact ⟨head?_eq_of_frontC hsock.1 (by decide), getLast?_ne_of_backC hsock.2⟩
    · have hp : is_valid_port h.port = true := by
        apply set_type_network_port (f := f) (a := h.address)
        rcases ht with ht | ht | ht
        · exact Or.inl (hc ▸ ht)
        · exact Or.inr (Or.inl (hc ▸ ht))
        · exact Or.inr (Or.inr (hc ▸ ht))
      exact is_valid_port_iff.mp hp
    · have hp2 : is_valid_port h.port = false := by
        cases hb : is_valid_port h.port
        · rfl
        · exact absurd (is_valid_port_iff.mp hb) hp
      rw [hc]
      exact set_type_invalid_of_bad_port (hc ▸ hne) hp2

theorem parseParts_address_nonempty {c : Char} {t : List Char}
    (hc1 : c ≠ '[') (hc2 : c ≠ ':') : (parseParts (c :: t)).address ≠ [] := by
  unfold parseParts
  dsimp only
  rw [if_neg hc1]
  by_cases h6 : is_valid_ipv6 (c :: t) = true
  · rw [if_pos h6]
    simp
  · rw [if_neg h6]
    have ha : (c :: t).takeWhile (fun x => x ≠ ':')
        = c :: t.takeWhile (fun x => x ≠ ':') :=
      List.takeWhile_cons_of_pos (by simp [hc2])
    split <;> simp [ha, hc2]

/-- C9: inputs whose trimmed text does not start with `:` or `[` always
hand `set_type` a non-empty address (amended: the unrestricted claim fails
on inputs such as `":123"`). -/
theorem setTypeArg_nonempty (s : List Char)
    (h1 : (trimmed s).head? ≠ some ':') (h2 : (trimmed s).head? ≠ some '[')
    {a : List Char} (hs : setTypeArg s = some a) : a ≠ [] := by
  unfold setTypeArg at hs
  dsimp only at hs
  by_cases he : (trimmed s).isEmpty = true
  · rw [if_pos he] at hs
    cases hs
  · rw [if_neg he] at hs
    cases hin : trimmed s with
    | nil =>
      rw [hin] at he
      exact absurd rfl he
    | cons c t =>
      rw [hin] at hs h1 h2
      have hc1 : c ≠ '[' := fun hh => h2 (by rw [hh]; rfl)
      have hc2 : c ≠ ':' := fun hh => h1 (by rw [hh]; rfl)
      split at hs
      · cases hs with
        | refl => exact parseParts_address_nonempty hc1 hc2
      · cases hs

/-- C9, claim as stated is false: the input `":123"` is fully consumed with
an empty parsed address, so `set_type` (and through it the socket and
hostname shape validators) does run on the empty string. -/
theorem setTypeArg_empty_counterexample : setTypeArg ":123".toList = some [] := by
  decide

/-- Witness for the amended C9 at the concrete input `"dbhost"`. -/
theorem setTypeArg_nonempty_witness :
    setTypeArg "dbhost".toList = some "dbhost".toList ∧ "dbhost".toList ≠ [] :=
  ⟨by decide, setTypeArg_nonempty "dbhost".toList (by decide) (by decide) (by decide)⟩

/-- C3: for every `Host` produced by either constructor, the
`UnixDomainSocket` type implies the socket address shape (leading slash,
no trailing slash), each network type implies a port strictly between 0
and 65536, and — socket type aside — an invalid or absent port forces the
`Invalid` type. -/
theorem host_type_invariants (s a : List Char) (p : Int) :
    hostInv (hostFromString s) ∧ hostInv (hostFromAddrPort a p) :=
  ⟨hostInv_of_cases (hostFromString_type_cases s),
   hostInv_of_cases ((hostFromAddrPort_type_cases a p).imp id fun h => ⟨false, h⟩)⟩

/-- Witness for C3 at `"127.0.0.1:3306"` (network type, so the port must
be in range) and at the socket host `"/tmp/mysql.sock"`. -/
theorem host_type_invariants_witness :
    (0 < (hostFromString "127.0.0.1:3306".toList).port
        ∧ (hostFromString "127.0.0.1:3306".toList).port < 65536)
      ∧ (hostFromString "/tmp/mysql.sock".toList).address.head? = some '/' :=
  ⟨(host_type_invariants "127.0.0.1:3306".toList [] 0).1.2.1 (Or.inr (Or.inl (by decide))),
   ((host_type_invariants "/tmp/mysql.sock".toList [] 0).1.1 (by decide)).1⟩

/-! ## Helper lemmas: validator character sets -/

theorem takeWhile_all {p : Char → Bool} :
    ∀ {l : List Char}, (∀ c ∈ l, p c = true) →
      l.takeWhile p = l ∧ l.dropWhile p = [] := by
  intro l
  induction l with
  | nil => intro _; exact ⟨rfl, rfl⟩
  | cons c t ih =>
    intro h
    have hc : p c = true := h c (List.mem_cons_self c t)
    have ht := ih fun x hx => h x (List.mem_cons_of_mem c hx)
    simp [List.takeWhile_cons, List.dropWhile_cons, hc, ht.1, ht.2]

theorem count_colon_one {a ds : List Char} (ha : ':' ∉ a) (hd : ':' ∉ ds) :
    (a ++ ':' :: ds).count ':' = 1 := by
  rw [List.count_append, List.count_cons, List.count_eq_zero.mpr ha,
    List.count_eq_zero.mpr hd]
  simp

theorem ipv6_false_of_lt_two_colons {l : List Char} (h : l.count ':' < 2) :
    is_valid_ipv6 l = false := by
  cases hb : is_valid_ipv6 l
  · rfl
  · exfalso
    have h2 : 2 ≤ l.count ':' := by
      have := hb
      unfold is_valid_ipv6 at this
      simp only [Bool.and_eq_true, decide_eq_true_eq] at this
      exact this.1.1
    omega

theorem ipv6_false_of_bad_char {l : List Char} {x : Char} (hx : x ∈ l)
    (hbad : (isxdigitC x || x = ':' || x = '.') = false) : is_valid_ipv6 l = false := by
  cases hb : is_valid_ipv6 l
  · rfl
  · exfalso
    have hall : ∀ c ∈ l, (isxdigitC c || c = ':' || c = '.') = true := by
      have := hb
      unfold is_valid_ipv6 at this
      simp only [Bool.and_eq_true] at this
      exact List.all_eq_true.mp (by simpa using this.1.2)
    rw [hall x hx] at hbad
    cases hbad

theorem is_valid_hostname_chars {a : List Char} (h : is_valid_hostname a = true) :
    a ≠ [] ∧ ∀ c ∈ a, (isalnumC c || c = '_' || c = '.') = true := by
  unfold is_valid_hostname at h
  simp only [Bool.and_eq_true, decide_eq_true_eq] at h
  exact ⟨List.ne_nil_of_length_pos h.2.2, List.all_eq_true.mp h.1.1⟩

theorem is_valid_ipv4_chars {a : List Char} (h : is_valid_ipv4 a = true) :
    a ≠ [] ∧ ∀ c ∈ a, (isdigitC c || c = '.') = true := by
  unfold is_valid_ipv4 at h
  simp only [Bool.and_eq_true, decide_eq_true_eq] at h
  exact ⟨List.ne_nil_of_length_pos (by omega), List.all_eq_true.mp h.1.1⟩

theorem is_valid_ipv6_chars {a : List Char} (h : is_valid_ipv6 a = true) :
    a ≠ [] ∧ ∀ c ∈ a, (isxdigitC c || c = ':' || c = '.') = true := by
  unfold is_valid_ipv6 at h
  simp only [Bool.and_eq_true, decide_eq_true_eq] at h
  exact ⟨List.ne_nil_of_length_pos (by omega), List.all_eq_true.mp (by simpa using h.1.2)⟩

theorem hostnameChar_space {x : Char} (hx : isspaceC x = true) :
    (isalnumC x || x = '_' || x = '.') = false := by
  rcases isspaceC_true_elim hx with rfl | rfl | rfl | rfl | rfl | rfl <;> decide

theorem ipv4Char_space {x : Char} (hx : isspaceC x = true) :
    (isdigitC x || x = '.') = false := by
  rcases isspaceC_true_elim hx with rfl | rfl | rfl | rfl | rfl | rfl <;> decide

theorem ipv6Char_space {x : Char} (hx : isspaceC x = true) :
    (isxdigitC x || x = ':' || x = '.') = false := by
  rcases isspaceC_true_elim hx with rfl | rfl | rfl | rfl | rfl | rfl <;> decide

theorem digitC_space {x : Char} (hx : isspaceC x = true) : isdigitC x = false := by
  rcases isspaceC_true_elim hx with rfl | rfl | rfl | rfl | rfl | rfl <;> decide

theorem mem_of_getLast?_eq {l : List Char} {a : Char} (h : l.getLast? = some a) :
    a ∈ l := by
  rcases List.mem_getLast?_eq_getLast (l := l) (x := a) (by rw [h]; rfl) with ⟨hne, rfl⟩
  exact List.getLast_mem hne

theorem getLast?_eq_backC {a : List Char} (h : a ≠ []) : a.getLast? = some (backC a) := by
  cases hg : a.getLast? with
  | none => exact absurd (List.getLast?_eq_none_iff.mp hg) h
  | some c => rw [backC_eq_of_getLast? hg]

/-! ## Helper lemmas: evaluating `parseParts` and `hostFromString` -/

theorem parseParts_split {c : Char} {t ds : List Char} {d : Char}
    (hbr : c ≠ '[') (h6 : is_valid_ipv6 (c :: (t ++ ':' :: d :: ds)) = false)
    (hnc : ':' ∉ c :: t) :
    parseParts (c :: (t ++ ':' :: d :: ds)) = ⟨c :: t, d :: ds, true⟩ := by
  have hsp := splitAt_marker (p := fun x => decide (x ≠ ':')) (x := ':') (by simp)
    (a := c :: t) (fun x hx => by simp [ne_of_mem_of_not_mem hx hnc]) (d :: ds)
  simp only [List.cons_append] at hsp
  unfold parseParts
  dsimp only
  rw [if_neg hbr, if_neg (by simp [h6]), hsp.1, hsp.2]

theorem parseParts_bracket {a ds : List Char} {d : Char} (hbr : ']' ∉ a) :
    parseParts ('[' :: (a ++ ']' :: ':' :: d :: ds)) = ⟨a, d :: ds, true⟩ := by
  have hsp := splitAt_marker (p := fun x => decide (x ≠ ']')) (x := ']') (by simp)
    (a := a) (fun x hx => by simp [ne_of_mem_of_not_mem hx hbr]) (':' :: d :: ds)
  unfold parseParts
  dsimp only
  rw [if_pos rfl, hsp.1, hsp.2]
  rfl

theorem parseParts_nocolon {c : Char} {t : List Char} (hbr : c ≠ '[')
    (h6 : is_valid_ipv6 (c :: t) = false) (hnc : ':' ∉ c :: t) :
    parseParts (c :: t) = ⟨c :: t, [], true⟩ := by
  have hsp := takeWhile_all (p := fun x => decide (x ≠ ':'))
    (l := c :: t) (fun x hx => by simp [ne_of_mem_of_not_mem hx hnc])
  unfold parseParts
  dsimp only
  rw [if_neg hbr, if_neg (by simp [h6]), hsp.1, hsp.2]

theorem hostFromString_eval {s : List Char} {a pp : List Char}
    (htr : (trimmed s).isEmpty = false)
    (hpp : parseParts (trimmed s) = ⟨a, pp, true⟩) :
    hostFromString s = ⟨s, a, portOfPart pp, set_type a (portOfPart pp) (!pp.isEmpty)⟩ := by
  unfold hostFromString
  dsimp only
  rw [if_neg (by simp [htr]), hpp]
  rfl

theorem portOfPart_digits {pp : List Char} (hne : pp ≠ [])
    (hd : ∀ c ∈ pp, isdigitC c = true) : portOfPart pp = (atoiNat pp : Int) := by
  unfold portOfPart
  rw [if_neg (by simp [hne]), if_pos (List.all_eq_true.mpr hd)]

theorem not_space_of_digit {x : Char} (h : isdigitC x = true) : isspaceC x = false := by
  cases hs : isspaceC x
  · rfl
  · rw [digitC_space hs] at h
    cases h

theorem colon_not_digit_mem {ds : List Char} (hds : ∀ c ∈ ds, isdigitC c = true) :
    ':' ∉ ds := fun hm => absurd (hds ':' hm) (by decide)

/-! ## Helper lemmas: round-trip cores -/

theorem roundtrip_addr_core (a ds : List Char) (hne : a ≠ [])
    (hhs : ∀ x, a.head? = some x → isspaceC x = false)
    (hhb : ∀ x, a.head? = some x → x ≠ '[')
    (hnc : ':' ∉ a)
    (hds_ne : ds ≠ []) (hds_dig : ∀ c ∈ ds, isdigitC c = true) :
    hostFromString (a ++ ':' :: ds)
      = ⟨a ++ ':' :: ds, a, (atoiNat ds : Int), set_type a ((atoiNat ds : Int)) true⟩ := by
  obtain ⟨c, t, rfl⟩ := List.exists_cons_of_ne_nil hne
  obtain ⟨d, ds2, rfl⟩ := List.exists_cons_of_ne_nil hds_ne
  have hc_sp : isspaceC c = false := hhs c rfl
  have hc_br : c ≠ '[' := hhb c rfl
  have hds_nc : ':' ∉ d :: ds2 := colon_not_digit_mem hds_dig
  have htrim : trimmed ((c :: t) ++ ':' :: d :: ds2) = (c :: t) ++ ':' :: d :: ds2 := by
    apply trimmed_eq_self hc_sp
    intro x hx
    have h1 : (c :: (t ++ ':' :: d :: ds2)).getLast? = (d :: ds2).getLast? := by
      rw [show c :: (t ++ ':' :: d :: ds2) = (c :: t) ++ ':' :: d :: ds2 from rfl,
        List.getLast?_append_of_ne_nil _ (List.cons_ne_nil _ _),
        show (':' :: d :: ds2) = [':'] ++ d :: ds2 from rfl,
        List.getLast?_append_of_ne_nil _ (List.cons_ne_nil _ _)]
    simp only [List.append_eq] at hx
    rw [h1] at hx
    exact not_space_of_digit (hds_dig x (mem_of_getLast?_eq hx))
  have h6 : is_valid_ipv6 (c :: (t ++ ':' :: d :: ds2)) = false := by
    apply ipv6_false_of_lt_two_colons
    have hcount : ((c :: t) ++ ':' :: d :: ds2).count ':' = 1 := count_colon_one hnc hds_nc
    rw [show c :: (t ++ ':' :: d :: ds2) = (c :: t) ++ ':' :: d :: ds2 from rfl, hcount]
    norm_num
  have hpp : parseParts (trimmed ((c :: t) ++ ':' :: d :: ds2))
      = ⟨c :: t, d :: ds2, true⟩ := by
    rw [htrim]
    exact parseParts_split hc_br h6 hnc
  rw [hostFromString_eval (by rw [htrim]; rfl) hpp,
    portOfPart_digits (List.cons_ne_nil _ _) hds_dig]
  rfl

theorem roundtrip_bracket_core (a ds : List Char) (hbr : ']' ∉ a)
    (hds_ne : ds ≠ []) (hds_dig : ∀ c ∈ ds, isdigitC c = true) :
    hostFromString ('[' :: a ++ ']' :: ':' :: ds)
      = ⟨'[' :: a ++ ']' :: ':' :: ds, a, (atoiNat ds : Int),
          set_type a ((atoiNat ds : Int)) true⟩ := by
  obtain ⟨d, ds2, rfl⟩ := List.exists_cons_of_ne_nil hds_ne
  have htrim : trimmed ('[' :: a ++ ']' :: ':' :: d :: ds2)
      = '[' :: a ++ ']' :: ':' :: d :: ds2 := by
    apply trimmed_eq_self (by decide)
    intro x hx
    have h1 : ('[' :: (a ++ ']' :: ':' :: d :: ds2)).getLast? = (d :: ds2).getLast? := by
      rw [show '[' :: (a ++ ']' :: ':' :: d :: ds2)
            = ('[' :: a) ++ (']' :: ':' :: d :: ds2) from rfl,
        List.getLast?_append_of_ne_nil _ (List.cons_ne_nil _ _),
        List.getLast?_cons_cons,
        show (':' :: d :: ds2) = [':'] ++ d :: ds2 from rfl,
        List.getLast?_append_of_ne_nil _ (List.cons_ne_nil _ _)]
    simp only [List.append_eq] at hx
    rw [h1] at hx
    exact not_space_of_digit (hds_dig x (mem_of_getLast?_eq hx))
  have hpp : parseParts (trimmed ('[' :: a ++ ']' :: ':' :: d :: ds2))
      = ⟨a, d :: ds2, true⟩ := by
    rw [htrim]
    exact parseParts_bracket hbr
  rw [hostFromString_eval (by rw [htrim]; rfl) hpp,
    portOfPart_digits (List.cons_ne_nil _ _) hds_dig]
  rfl

theorem roundtrip_socket_core {a : List Char} (hsock : is_valid_socket a = true)
    (hnc : ':' ∉ a) (hls : isspaceC (backC a) = false) :
    hostFromString a = ⟨a, a, invalidPort, set_type a invalidPort false⟩ := by
  have hfr : frontC a = '/' ∧ backC a ≠ '/' := by simpa [is_valid_socket] using hsock
  have hane : a ≠ [] := by
    intro he
    rw [he] at hfr
    exact absurd hfr.1 (by decide)
  obtain ⟨c, t, rfl⟩ := List.exists_cons_of_ne_nil hane
  have hc : c = '/' := hfr.1
  subst hc
  have htrim : trimmed ('/' :: t) = '/' :: t := by
    apply trimmed_eq_self (by decide)
    intro x hx
    rw [getLast?_eq_backC (List.cons_ne_nil _ _)] at hx
    cases hx with
    | refl => exact hls
  have h6 : is_valid_ipv6 ('/' :: t) = false :=
    ipv6_false_of_bad_char (List.mem_cons_self _ _) (by decide)
  have hpp : parseParts (trimmed ('/' :: t)) = ⟨'/' :: t, [], true⟩ := by
    rw [htrim]
    exact parseParts_nocolon (by decide) h6 hnc
  rw [hostFromString_eval (by rw [htrim]; rfl) hpp]
  rfl

theorem atoiNat_natChars_int {p : Int} (hp : 0 < p) :
    ((atoiNat (natChars p.toNat) : Nat) : Int) = p := by
  rw [atoiNat_natChars]
  exact Int.toNat_of_nonneg hp.le

theorem mem_of_head?_eq {l : List Char} {x : Char} (h : l.head? = some x) : x ∈ l := by
  cases l with
  | nil => cases h
  | cons c t =>
    cases h
    exact List.mem_cons_self _ _

theorem roundtrip_of_cases {h : Host}
    (hex : ∃ f, h.type = set_type h.address h.port f)
    (huds : udsRoundtripSafe h) :
    h.type ≠ .Invalid → hostEquiv (hostFromString (formatHost h)) h := by
  obtain ⟨f, hc⟩ := hex
  intro hninv
  cases ht : h.type with
  | Invalid => exact absurd ht hninv
  | UnixDomainSocket =>
    obtain ⟨hsock, hf⟩ := set_type_uds_elim (hc.symm.trans ht)
    obtain ⟨hnc, hls, hport⟩ := huds ht
    have hfmt : formatHost h = h.address := by simp [formatHost, ht]
    rw [hfmt, roundtrip_socket_core hsock hnc hls]
    refine ⟨rfl, hport.symm, ?_⟩
    have hty : h.type = set_type h.address invalidPort false := by
      rw [← hport, ← hf]
      exact hc
    exact hty.symm
  | HostName =>
    obtain ⟨hsock, hp, h4, h6, hhn⟩ := set_type_hostname_elim (hc.symm.trans ht)
    obtain ⟨hp1, hp2⟩ := is_valid_port_iff.mp hp
    obtain ⟨hane, hchars⟩ := is_valid_hostname_chars hhn
    have hfmt : formatHost h = h.address ++ ':' :: natChars h.port.toNat := by
      simp [formatHost, ht, intChars_pos hp1]
    have hrt := roundtrip_addr_core h.address (natChars h.port.toNat)
      hane
      (fun x hx => by
        have hm := hchars x (mem_of_head?_eq hx)
        cases hs : isspaceC x
        · rfl
        · rw [hostnameChar_space hs] at hm
          cases hm)
      (fun x hx => ne_of_pred
        (p := fun y => isalnumC y || decide (y = '_') || decide (y = '.'))
        (hchars x (mem_of_head?_eq hx)) (by decide))
      (fun hm => absurd (hchars ':' hm) (by decide))
      (natChars_ne_nil _) (fun c hcm => natChars_digits hcm)
    rw [hfmt, hrt]
    refine ⟨rfl, atoiNat_natChars_int hp1, ?_⟩
    show set_type h.address ((atoiNat (natChars h.port.toNat) : Nat) : Int) true = h.type
    rw [atoiNat_natChars_int hp1, set_type_flag_irrel hsock true f]
    exact hc.symm
  | IPV4 =>
    obtain ⟨hsock, hp, h4⟩ := set_type_ipv4_elim (hc.symm.trans ht)
    obtain ⟨hp1, hp2⟩ := is_valid_port_iff.mp hp
    obtain ⟨hane, hchars⟩ := is_valid_ipv4_chars h4
    have hfmt : formatHost h = h.address ++ ':' :: natChars h.port.toNat := by
      simp [formatHost, ht, intChars_pos hp1]
    have hrt := roundtrip_addr_core h.address (natChars h.port.toNat)
      hane
      (fun x hx => by
        have hm := hchars x (mem_of_head?_eq hx)
        cases hs : isspaceC x
        · rfl
        · rw [ipv4Char_space hs] at hm
          cases hm)
      (fun x hx => ne_of_pred
        (p := fun y => isdigitC y || decide (y = '.'))
        (hchars x (mem_of_head?_eq hx)) (by decide))
      (fun hm => absurd (hchars ':' hm) (by decide))
      (natChars_ne_nil _) (fun c hcm => natChars_digits hcm)
    rw [hfmt, hrt]
    refine ⟨rfl, atoiNat_natChars_int hp1, ?_⟩
    show set_type h.address ((atoiNat (natChars h.port.toNat) : Nat) : Int) true = h.type
    rw [atoiNat_natChars_int hp1, set_type_flag_irrel hsock true f]
    exact hc.symm
  | IPV6 =>
    obtain ⟨hsock, hp, h4, hv6⟩ := set_type_ipv6_elim (hc.symm.trans ht)
    obtain ⟨hp1, hp2⟩ := is_valid_port_iff.mp hp
    obtain ⟨hane, hchars⟩ := is_valid_ipv6_chars hv6
    have hfmt : formatHost h = '[' :: h.address ++ ']' :: ':' :: natChars h.port.toNat := by
      simp [formatHost, ht, intChars_pos hp1]
    have hrt := roundtrip_bracket_core h.address (natChars h.port.toNat)
      (fun hm => absurd (hchars ']' hm) (by decide))
      (natChars_ne_nil _) (fun c hcm => natChars_digits hcm)
    rw [hfmt, hrt]
    refine ⟨rfl, atoiNat_natChars_int hp1, ?_⟩
    show set_type h.address ((atoiNat (natChars h.port.toNat) : Nat) : Int) true = h.type
    rw [atoiNat_natChars_int hp1, set_type_flag_irrel hsock true f]
    exact hc.symm

/-- C5 (amended): every non-`Invalid` `Host` produced by either
constructor round-trips through formatting and re-parsing, provided that a
`UnixDomainSocket` host has no colon in its address, no trailing
whitespace, and the unset port; without that proviso the claim fails. -/
theorem host_roundtrip (s a : List Char) (p : Int) :
    ((hostFromString s).type ≠ .Invalid → udsRoundtripSafe (hostFromString s) →
      hostEquiv (hostFromString (formatHost (hostFromString s))) (hostFromString s))
    ∧ ((hostFromAddrPort a p).type ≠ .Invalid → udsRoundtripSafe (hostFromAddrPort a p) →
      hostEquiv (hostFromString (formatHost (hostFromAddrPort a p)))
        (hostFromAddrPort a p)) := by
  constructor
  · intro hninv huds
    rcases hostFromString_type_cases s with hI | hse
    · exact absurd hI hninv
    · exact roundtrip_of_cases hse huds hninv
  · intro hninv huds
    rcases hostFromAddrPort_type_cases a p with hI | hse
    · exact absurd hI hninv
    · exact roundtrip_of_cases ⟨false, hse⟩ huds hninv

/-- C5 as stated is false: the socket host built by the
`(address, port)` constructor from `("/a", 5)` is not `Invalid`, yet
formatting it (the bare address) and re-parsing yields the unset port
`-1`, not `5`. -/
theorem host_roundtrip_counterexample :
    (hostFromAddrPort "/a".toList 5).type ≠ .Invalid
      ∧ (hostFromString (formatHost (hostFromAddrPort "/a".toList 5))).port
          ≠ (hostFromAddrPort "/a".toList 5).port := by
  decide

/-- Witness for the amended C5 at `"[::1]:4000"` (an IPv6 host). -/
theorem host_roundtrip_witness :
    hostEquiv (hostFromString (formatHost (hostFromString "[::1]:4000".toList)))
      (hostFromString "[::1]:4000".toList) :=
  (host_roundtrip "[::1]:4000".toList [] 0).1 (by decide) (fun hu => absurd hu (by decide))

/-! ## Claims on `mxs_mysql_real_connect` -/

/-- C2: when TLS material is configured and non-empty and the transport
connect succeeds but the session reports no negotiated cipher,
`mxs_mysql_real_connect` returns no connection. -/
theorem real_connect_tls_enforced (env : ConnectEnv) (server : Server)
    (cfg : SslConfig) (hssl : server.ssl = some cfg) (hne : cfg.isEmptyCfg = false)
    (hconn : transportConnected env server = true)
    (hciph : env.cipher = none) :
    (mxs_mysql_real_connect env server).1 = none := by
  unfold mxs_mysql_real_connect
  simp only [hssl, hne, hconn, hciph, Bool.not_false, Option.isNone_none, Bool.and_true,
    if_true]

/-- Witness for C2: a concrete environment where the primary connect
succeeds, TLS is configured with a CA path, and no cipher is negotiated. -/
theorem real_connect_tls_enforced_witness :
    (mxs_mysql_real_connect
      ⟨false, true, false, none, 8⟩
      ⟨"db1".toList, 3306, 0, 63, true, some ⟨[], [], "/ca.pem".toList⟩⟩).1 = none :=
  real_connect_tls_enforced _ _ ⟨[], [], "/ca.pem".toList⟩ rfl (by decide) (by decide) rfl

/-- C10: whenever the transport connect succeeds, the server's charset
field is updated from the session, also on the path that then discards the
connection because TLS was configured but no cipher was negotiated. -/
theorem real_connect_updates_charset (env : ConnectEnv) (server : Server)
    (hconn : transportConnected env server = true) :
    ((mxs_mysql_real_connect env server).2).charset = env.charsetNumber := by
  unfold mxs_mysql_real_connect
  simp only [hconn, if_true]
  split
  · split <;> rfl
  · rfl

/-- Witness for C10: with TLS configured, no cipher, and a charset that
differs from the stored one, the returned server carries the session
charset even though the connection is discarded. -/
theorem real_connect_updates_charset_witness :
    ((mxs_mysql_real_connect
      ⟨false, true, false, none, 8⟩
      ⟨"db1".toList, 3306, 0, 63, true, some ⟨[], [], "/ca.pem".toList⟩⟩).2).charset = 8 :=
  real_connect_updates_charset _ _ (by decide)

/-! ## Claims on `execute_query` -/

/-- C7 as stated is false: the message the code formats carries a trailing
period, so it is not exactly `Query '<text>' failed: '<server message>'`. -/
theorem execute_query_message_counterexample :
    (execute_query ⟨1, false, "boom".toList, 1064⟩ "SELECT 1".toList).2.1
      ≠ some ("Query 'SELECT 1' failed: 'boom'".toList) := by
  decide

/-- C7 (amended): on terminal failure `execute_query` returns no result,
the message `Query '<text>' failed: '<server message>'.` — with a trailing
period — and the server's numeric error code. -/
theorem execute_query_failure (conn : MySqlSession) (query : List Char)
    (hfail : ¬(conn.queryRc = 0 ∧ conn.storeOk = true)) :
    execute_query conn query
      = (none,
          some ("Query '".toList ++ query ++ "' failed: '".toList
            ++ conn.errMsg ++ "'.".toList),
          some conn.errNo) := by
  unfold execute_query
  split
  · rename_i hcond
    simp only [Bool.and_eq_true, decide_eq_true_eq] at hcond
    exact absurd hcond hfail
  · rfl

/-- Witness for the amended C7 at a concrete failing query. -/
theorem execute_query_failure_witness :
    execute_query ⟨1, false, "boom".toList, 1064⟩ "SELECT 1".toList
      = (none, some ("Query 'SELECT 1' failed: 'boom'.".toList), some 1064) :=
  execute_query_failure ⟨1, false, "boom".toList, 1064⟩ "SELECT 1".toList (by simp)

/-! ## Claims on `mxs_mysql_name_to_pcre` -/

/-- C8 as stated is false: under `MXS_PCRE_QUOTE_VERBATIM` a `%` advances
the output pointer without writing, so the output cell is not the
unchanged `%` character. -/
theorem name_to_pcre_verbatim_counterexample :
    mxs_mysql_name_to_pcre ['%'] .verbatim = ([none], .withWildcard)
      ∧ ([none] : List (Option Char)) ≠ [some '%'] := by
  decide

/-- C8 (amended): the translation is exactly the per-character map
`pcreCharTrans` — backslash-escape for the metacharacters, `.*` for `%`
under wildcard quoting, an unwritten cell for `%` under verbatim quoting,
identity otherwise — and the wildcard flag is set iff the pattern contains
`%`. -/
theorem name_to_pcre_spec (p : List Char) (ap : QuoteApproach) :
    (mxs_mysql_name_to_pcre p ap).1 = p.flatMap (pcreCharTrans ap)
      ∧ ((mxs_mysql_name_to_pcre p ap).2 = .withWildcard ↔ '%' ∈ p) := by
  induction p with
  | nil =>
    refine ⟨rfl, ?_⟩
    simp [mxs_mysql_name_to_pcre]
  | cons c cs ih =>
    by_cases hc : c = '%'
    · subst hc
      constructor
      · simp [mxs_mysql_name_to_pcre, pcreCharTrans, List.flatMap_cons, ih.1]
      · simp [mxs_mysql_name_to_pcre]
    · by_cases hm : c ∈ pcreMetaChars
      · constructor
        · simp [mxs_mysql_name_to_pcre, pcreCharTrans, List.flatMap_cons, ih.1, hc, hm]
        · simp only [mxs_mysql_name_to_pcre, if_neg hc, if_pos hm]
          rw [ih.2]
          simp [List.mem_cons, Ne.symm hc]
      · constructor
        · simp [mxs_mysql_name_to_pcre, pcreCharTrans, List.flatMap_cons, ih.1, hc, hm]
        · simp only [mxs_mysql_name_to_pcre, if_neg hc, if_neg hm]
          rw [ih.2]
          simp [List.mem_cons, Ne.symm hc]

/-! ## Claims on `mxs_mysql_trim_quotes` -/

/-- C6 as stated is false: on a mismatched quote the code performs no
compaction, so leading whitespace survives — `"  'abc"` comes back as
`"  'abc"`, not as the fully whitespace-trimmed `"'abc"`. -/
theorem trim_quotes_counterexample :
    (mxs_mysql_trim_quotes "  'abc".toList).2 = false
      ∧ (mxs_mysql_trim_quotes "  'abc".toList).1 ≠ "'abc".toList
      ∧ (mxs_mysql_trim_quotes "  'abc".toList).1 = "  'abc".toList := by
  decide

/-- C6 (amended): when the text left after whitespace trimming starts with
a quote character that the trailing character does not match, the function
reports failure and returns the input with only the trailing whitespace
removed — the leading whitespace and both quote characters stay. -/
theorem trim_quotes_mismatch (s : List Char)
    (hne : s.dropWhile isspaceC ≠ [])
    (hq : isQuoteChar (frontC (trimRight (s.dropWhile isspaceC))) = true)
    (hmm2 : backC (trimRight (s.dropWhile isspaceC))
      ≠ frontC (trimRight (s.dropWhile isspaceC))) :
    mxs_mysql_trim_quotes s
      = (s.takeWhile isspaceC ++ trimRight (s.dropWhile isspaceC), false) := by
  cases hr : s.dropWhile isspaceC with
  | nil => exact absurd hr hne
  | cons c t =>
    rw [hr] at hq hmm2
    unfold mxs_mysql_trim_quotes
    rw [hr]
    dsimp only
    rw [if_pos hq, if_neg hmm2]

/-- Witness for the amended C6 at `" 'ab"`. -/
theorem trim_quotes_mismatch_witness :
    mxs_mysql_trim_quotes " 'ab".toList = (" 'ab".toList, false) :=
  trim_quotes_mismatch " 'ab".toList (by decide) (by decide) (by decide)

/-! ## Claims on `dbg_decode_response` -/

theorem decodeLoop_nil (buf : List Nat) (pos : Nat) (n : Int)
    (h : ¬n > (MYSQL_HEADER_LEN : Int) + 1) : decodeLoop buf pos n = ⟨[], [], n⟩ := by
  rw [decodeLoop, dif_neg h]

/-- C1: evaluating the decoder on the 6-byte buffer
`[0x03, 0x00, 0x00, 0x00, 0xff, 0x09]` — an ERR header declaring a 3-byte
payload with only 2 payload bytes present — records a read of offset 6,
one past the end of the buffer. -/
theorem decode_err_oob_read :
    ([3, 0, 0, 0, 0xff, 9] : List Nat).length = 6
      ∧ ((dbg_decode_response [3, 0, 0, 0, 0xff, 9]).reads.any (fun i => 6 ≤ i)) = true := by
  refine ⟨rfl, ?_⟩
  simp [dbg_decode_response, decodeLoop, byteAt, MYSQL_HEADER_LEN, errReads]
  exact ⟨1, by norm_num, by norm_num⟩

/-- C4 as stated is false: the buffer `[1, 0, 0, 0, 0]` has 5 remaining
bytes — more than the 4-byte header — yet the loop decodes nothing and
leaves all 5 bytes unconsumed, because its guard is
`nRemaining > MYSQL_HEADER_LEN + 1`. -/
theorem decode_guard_counterexample :
    (dbg_decode_response [1, 0, 0, 0, 0]).packets = []
      ∧ (dbg_decode_response [1, 0, 0, 0, 0]).finalRemaining = 5 := by
  constructor <;> simp [dbg_decode_response, decodeLoop, byteAt, MYSQL_HEADER_LEN]

/-- C4 (amended): the decoder stops cleanly — decoding nothing further —
as soon as at most `MYSQL_HEADER_LEN + 1` bytes remain (header plus the
classification byte, i.e. 5, not the bare 4-byte header), and a buffer
holding exactly one full packet with payload length in `[2, 2^24)` decodes
to exactly that packet, advancing by header length plus payload length to
leave zero bytes remaining. -/
theorem dbg_decode_response_amended :
    (∀ buf : List Nat, buf.length ≤ MYSQL_HEADER_LEN + 1 →
        dbg_decode_response buf = ⟨[], [], (buf.length : Int)⟩)
      ∧ (∀ (seq : Nat) (payload : List Nat), 2 ≤ payload.length →
          payload.length < 16777216 →
          (dbg_decode_response (encodePacket seq payload)).packets
              = [⟨seq, payload.length, packetClassOf payload⟩]
            ∧ (dbg_decode_response (encodePacket seq payload)).finalRemaining = 0) := by
  constructor
  · intro buf hle
    unfold dbg_decode_response
    refine decodeLoop_nil buf 0 _ ?_
    simp only [MYSQL_HEADER_LEN] at hle ⊢
    push_cast
    omega
  · intro seq payload h2 hlt
    have hlen : (encodePacket seq payload).length = 4 + payload.length := by
      simp [encodePacket]
      omega
    have hbj : ∀ j, byteAt (encodePacket seq payload) (4 + j) = payload.getD j 0 := by
      intro j
      show (payload.length % 256 :: payload.length / 256 % 256
        :: payload.length / 65536 % 256 :: seq :: payload).getD (4 + j) 0 = payload.getD j 0
      rw [show 4 + j = j + 4 from by omega]
      simp [List.getD_cons_succ]
    unfold dbg_decode_response
    rw [hlen, decodeLoop,
      dif_pos (by simp only [MYSQL_HEADER_LEN]; push_cast; omega)]
    dsimp only
    simp only [Nat.zero_add, byteAt, encodePacket, List.getD_cons_zero, List.getD_cons_succ]
    have hsum : payload.length % 256 + 256 * (payload.length / 256 % 256)
        + 65536 * (payload.length / 65536 % 256) = payload.length := by omega
    rw [hsum]
    have hn0 : ((4 + payload.length : Nat) : Int) - (MYSQL_HEADER_LEN : Int)
        - (payload.length : Int) = 0 := by
      simp only [MYSQL_HEADER_LEN]
      push_cast
      ring
    rw [hn0, decodeLoop_nil _ _ 0 (by norm_num [MYSQL_HEADER_LEN])]
    have hmsg : ∀ k : Nat,
        ((payload.length % 256 :: payload.length / 256 % 256
          :: payload.length / 65536 % 256 :: seq :: payload) : List Nat)[13 + k]?.getD 0
          = payload[9 + k]?.getD 0 := by
      intro k
      rw [show 13 + k = (9 + k) + 4 from by omega]
      simp
    constructor
    · simp only [apply_ite (f := fun x : PacketClass × List Nat => x.1)]
      unfold packetClassOf
      simp [List.getD, hmsg]
    · rfl

/-- Witness for the amended C4: the 7-byte OK packet (payload length 3,
sequence 0, payload `[0, 0, 0]`) decodes to exactly one OK packet with
zero bytes remaining, and a 4-byte truncated buffer decodes to nothing. -/
theorem dbg_decode_response_amended_witness :
    ((dbg_decode_response [3, 0, 0, 0, 0, 0, 0]).packets = [⟨0, 3, .ok⟩]
        ∧ (dbg_decode_response [3, 0, 0, 0, 0, 0, 0]).finalRemaining = 0)
      ∧ dbg_decode_response [1, 0, 0, 0] = ⟨[], [], 4⟩ := by
  constructor
  · have h := dbg_decode_response_amended.2 0 [0, 0, 0] (by norm_num) (by norm_num)
    constructor
    · rw [show ([3, 0, 0, 0, 0, 0, 0] : List Nat) = encodePacket 0 [0, 0, 0] from rfl, h.1]
      simp [packetClassOf]
    · rw [show ([3, 0, 0, 0, 0, 0, 0] : List Nat) = encodePacket 0 [0, 0, 0] from rfl, h.2]
  · have h := dbg_decode_response_amended.1 [1, 0, 0, 0] (by norm_num [MYSQL_HEADER_LEN])
    simpa using h

end Mxs
